import Mathlib

/-!
Verification of the openslides-icc-service backend (internal/redis/redis.go),
the environment parsing in internal/run/run.go, and the HTTP gateway
behaviour exercised by the tests in the icc package.

The redis sorted set used for applause is modelled as an association list
from member (userID) to score (timestamp); the redis stream used for icc
messages is modelled as a list of entries with store-assigned increasing
numeric ids.
-/

/- ## ICC stream model (redis.go, SendICC / ReceiveICC) -/

/-- Stream-id strings as ReceiveICC uses them: the Go empty string (initial
value of Redis.lastICCID), the special id "$" (read only entries appended
from now on), or a concrete store-assigned id. -/
inductive ICCID where
  | empty
  | dollar
  | at (n : Nat)
deriving DecidableEq

/-- An entry of the icc redis stream: a store-assigned id (added by XADD with
auto-id "*") and the content field. -/
structure StreamEntry where
  id : Nat
  content : String
deriving DecidableEq

/-- The streamReturn struct local to ReceiveICC (redis.go lines 82-86): the id
and data extracted from the XREAD reply plus an error.  id = none models the
Go zero value "" that a failed XREAD leaves behind. -/
structure streamReturn where
  id : Option Nat
  data : Option String
  err : Option String
deriving DecidableEq

/-- Which branch of the select in ReceiveICC (redis.go lines 99-103) fires:
either the XREAD goroutine delivered its streamReturn, or the context was done
first, carrying ctx.Err(). -/
inductive SelectOutcome where
  | streamDone (received : streamReturn)
  | ctxDone (ctxErr : String)
deriving DecidableEq

/-- The result of one ReceiveICC call: the returned data and error, plus the
value of Redis.lastICCID after the call. -/
structure ReceiveResult where
  data : Option String
  err : Option String
  lastICCID : ICCID
deriving DecidableEq

/-- One call of Redis.ReceiveICC (redis.go lines 76-114), shallowly embedded:
the outcome of the select is a parameter, because Go's select chooses among
its ready cases nondeterministically; possibleResults below collects the
outcomes that are legal in a given situation.  Note line 106 stores the local
variable id (the pre-call cursor, "$" when the cursor was empty) into
r.lastICCID, not received.id. -/
def receiveICC (lastICCID : ICCID) (outcome : SelectOutcome) : ReceiveResult :=
  let id := if lastICCID = ICCID.empty then ICCID.dollar else lastICCID
  match outcome with
  | SelectOutcome.ctxDone ctxErr => ⟨none, some ctxErr, lastICCID⟩
  | SelectOutcome.streamDone received =>
    let nextCursor := if received.id.isSome then id else lastICCID
    match received.err with
    | some e => ⟨none, some ("read icc message from redis: " ++ e), nextCursor⟩
    | none => ⟨received.data, none, nextCursor⟩

/-- The results one ReceiveICC call may produce, given whether the
cancellation has fired before the caller reaches the select (redis.go line 99)
and whether the XREAD goroutine's streamReturn is already ready on the
unbuffered channel at that moment.  Go's select chooses uniformly among its
ready cases, so when both are ready either branch may be taken; when neither
is ready the select blocks and no result is produced yet. -/
def possibleResults (lastICCID : ICCID) (ctxErr : String) (ctxFired : Bool)
    (streamReady : Option streamReturn) : List ReceiveResult :=
  (if ctxFired then [receiveICC lastICCID (SelectOutcome.ctxDone ctxErr)] else [])
    ++ (match streamReady with
        | none => []
        | some r => [receiveICC lastICCID (SelectOutcome.streamDone r)])

/-- The state of one Redis instance relevant to the icc stream: the stream
contents, the next store-assigned id, and the read cursor lastICCID. -/
structure ICCState where
  stream : List StreamEntry
  nextID : Nat
  lastICCID : ICCID
deriving DecidableEq

/-- A fresh Redis instance (redis.New): empty stream, empty cursor. -/
def initialRedis : ICCState := ⟨[], 0, ICCID.empty⟩

/-- Redis.SendICC (redis.go lines 58-67): XADD appends an entry with the next
store-assigned id. -/
def sendICC (st : ICCState) (message : String) : ICCState :=
  ⟨st.stream ++ [⟨st.nextID, message⟩], st.nextID + 1, st.lastICCID⟩

/-- XREAD on the current stream contents for a given id: "$" matches no
existing entry (only entries appended while the call blocks); a concrete id n
returns the first entry with id greater than n.  none means the call blocks. -/
def xreadNow (stream : List StreamEntry) : ICCID → Option StreamEntry
  | ICCID.empty => none
  | ICCID.dollar => none
  | ICCID.at n => (stream.filter (fun e => decide (n < e.id))).head?

/-- The cursor update of ReceiveICC after a successful read (redis.go lines
105-107): received.id is nonempty, so r.lastICCID is assigned the local
variable id, which holds the pre-call cursor ("$" when the cursor was empty)
rather than the id of the entry that was read. -/
def finishReceive (st : ICCState) (id : ICCID) : ICCState :=
  ⟨st.stream, st.nextID, id⟩

/-- Operations of a schedule against one Redis instance: a SendICC from some
writer, or a ReceiveICC by the single logical reader. -/
inductive Op where
  | send (message : String)
  | receive
deriving DecidableEq

/-- Runs a schedule of sends and receives sequentially and collects the value
each ReceiveICC returns, in order.  A receive that finds data at its resolved
id returns it at once; a receive that blocks is woken by the next send in the
schedule (the entry appended by that send is what its XREAD returns); a
receive that blocks with no later send never returns, modelled as none. -/
def runOps : List Op → ICCState → List (Option String)
  | [], _ => []
  | Op.send m :: rest, st => runOps rest (sendICC st m)
  | Op.receive :: rest, st =>
    let id := if st.lastICCID = ICCID.empty then ICCID.dollar else st.lastICCID
    match xreadNow st.stream id with
    | some e => some e.content :: runOps rest (finishReceive st id)
    | none =>
      match rest with
      | Op.send m :: rest2 => some m :: runOps rest2 (finishReceive (sendICC st m) id)
      | _ => [none]

/- ## Applause model (redis.go, SendApplause / ReceiveApplause / DeleteOldApplause) -/

/-- The redis sorted set under the applause key, as an association list from
member (userID) to score (timestamp).  All reachable states have pairwise
distinct members. -/
abbrev ApplauseState := List (Int × Int)

/-- Redis ZADD key score member: updates the score of the member in place when
the member is already present, otherwise adds the member with the score. -/
def zadd : ApplauseState → Int → Int → ApplauseState
  | [], score, member => [(member, score)]
  | p :: rest, score, member =>
    if p.1 = member then (member, score) :: rest else p :: zadd rest score member

/-- Redis ZSCORE: the score stored for a member, if any. -/
def zscore (s : ApplauseState) (member : Int) : Option Int :=
  (s.find? (fun p => decide (p.1 = member))).map Prod.snd

/-- Redis.SendApplause (redis.go lines 118-127): ZADD applause time userID. -/
def sendApplause (s : ApplauseState) (userID : Int) (time : Int) : ApplauseState :=
  zadd s time userID

/-- Redis.ReceiveApplause (redis.go lines 131-141): ZCOUNT applause since +inf,
the number of members whose score is at least since. -/
def receiveApplause (s : ApplauseState) (since : Int) : Nat :=
  (s.filter (fun p => decide (since ≤ p.2))).length

/-- Redis.DeleteOldApplause (redis.go lines 144-152): ZREMRANGEBYSCORE
applause 0 (olderThen-1), removing exactly the members whose score lies in the
closed interval from 0 to olderThen - 1. -/
def deleteOldApplause (s : ApplauseState) (olderThen : Int) : ApplauseState :=
  s.filter (fun p => !(decide (0 ≤ p.2) && decide (p.2 ≤ olderThen - 1)))

/-- The state after a sequence of SendApplause calls, starting from an empty
sorted set. -/
def applyAll (sends : List (Int × Int)) : ApplauseState :=
  sends.foldl (fun s p => sendApplause s p.1 p.2) []

/-- The timestamp of the most recent SendApplause call for a user within a
sequence of (userID, time) sends, if any. -/
def lastSent (sends : List (Int × Int)) (u : Int) : Option Int :=
  ((sends.filter (fun p => decide (p.1 = u))).getLast?).map Prod.snd

/-- Modelled from the spec: the number of distinct userIDs whose most recent
SendApplause timestamp is at least since (the windowed count invariant the
spec states for Receive).  This is the spec-side count that receiveApplause
is compared against. -/
def specDistinctRecentCount (sends : List (Int × Int)) (since : Int) : Nat :=
  (((sends.map Prod.fst).toFinset).filter
    (fun u => since ≤ (lastSent sends u).getD (since - 1))).card

/- ## HTTP gateway model (internal/icc HandleSend / HandleReceive) -/

/-- The closed error taxonomy of the service: the client-visible kinds carry a
stable machine-readable tag, the internal kind carries the underlying error
text that must never reach a client. -/
inductive IccError where
  | notAllowed
  | invalid
  | internal (msg : String)
deriving DecidableEq

/-- The body of an HTTP response written by the gateway: a verbatim payload, or
a structured error object carrying an error-kind tag and a message. -/
inductive Body where
  | payload (p : String)
  | errorTagged (tag : String) (msg : String)
deriving DecidableEq

/-- The fixed generic error body used for internal errors: a constant tag and
message, built with no reference to the underlying error. -/
def genericErrorBody : Body := Body.errorTagged "internal" "Ups, something went wrong!"

/-- An observed HTTP outcome: status code, body, and whether the wrapped
Sender or Receiver capability was invoked. -/
structure HandlerResponse where
  status : Nat
  body : Body
  backendCalled : Bool
deriving DecidableEq

/-- Modelled from the spec: icc.HandleSend, whose implementation
(internal/icc) is not under src/ and is specified by section 4.5 of the spec
and exercised by TestHandleSend.  The authenticated identity is a userID with
0 meaning anonymous; sendResult is what Sender.Send returns when invoked.  An
anonymous request is answered 401 with a not-allowed error body and the sender
is not called; otherwise the sender runs and an internal error is answered 500
with the fixed generic body, never echoing the error text. -/
def handleSend (userID : Nat) (sendResult : Option IccError) : HandlerResponse :=
  if userID = 0 then
    ⟨401, Body.errorTagged "not-allowed" "Anonymous user can not send icc messages.", false⟩
  else
    match sendResult with
    | none => ⟨200, Body.payload "", true⟩
    | some IccError.notAllowed => ⟨401, Body.errorTagged "not-allowed" "not allowed", true⟩
    | some IccError.invalid => ⟨400, Body.errorTagged "invalid" "the icc message is invalid", true⟩
    | some (IccError.internal _) => ⟨500, genericErrorBody, true⟩

/-- Modelled from the spec: icc.HandleReceive, whose implementation
(internal/icc) is not under src/ and is specified by section 4.5 of the spec
and exercised by TestHandleReceive.  Anonymous access is allowed; recvResult
is what Receiver.Receive returns.  A payload is written verbatim with status
200; a client-visible error is written as a structured body with status 200;
an internal error is written as the fixed generic body with status 200, never
echoing the error text. -/
def handleReceive (recvResult : Except IccError String) : HandlerResponse :=
  match recvResult with
  | Except.ok p => ⟨200, Body.payload p, true⟩
  | Except.error IccError.notAllowed => ⟨200, Body.errorTagged "not-allowed" "not allowed", true⟩
  | Except.error IccError.invalid => ⟨200, Body.errorTagged "invalid" "the icc message is invalid", true⟩
  | Except.error (IccError.internal _) => ⟨200, genericErrorBody, true⟩

/- ## Environment parsing model (run.go, defaultEnv) -/

/-- The built-in default configuration of defaultEnv (run.go lines 93-114). -/
def defaultEnvDefaults : List (String × String) :=
  [("ICC_PORT", "9007"),
   ("ICC_REDIS_HOST", "localhost"),
   ("ICC_REDIS_PORT", "6379"),
   ("DATASTORE_READER_HOST", "localhost"),
   ("DATASTORE_READER_PORT", "9010"),
   ("DATASTORE_READER_PROTOCOL", "http"),
   ("MESSAGING", "fake"),
   ("MESSAGE_BUS_HOST", "localhost"),
   ("MESSAGE_BUS_PORT", "6379"),
   ("REDIS_TEST_CONN", "true"),
   ("AUTH", "fake"),
   ("AUTH_PROTOCOL", "http"),
   ("AUTH_HOST", "localhost"),
   ("AUTH_PORT", "9004"),
   ("OPENSLIDES_DEVELOPMENT", "false")]

/-- Go map assignment env[k] = v on an association-list model of the map. -/
def envSet : List (String × String) → String → String → List (String × String)
  | [], k, v => [(k, v)]
  | (k0, v0) :: rest, k, v =>
    if k0 = k then (k, v) :: rest else (k0, v0) :: envSet rest k v

/-- Go map lookup env[k]. -/
def envLookup (k : String) : List (String × String) → Option String
  | [] => none
  | (k0, v0) :: rest => if k0 = k then some v0 else envLookup k rest

/-- Go strings.SplitN(value, "=", 2) on the character list of value: splits at
the first '=' into the part before and the part after; none when value has no
'=' at all, the case in which SplitN yields a single part and defaultEnv
panics. -/
def splitEq : List Char → Option (List Char × List Char)
  | [] => none
  | c :: rest =>
    if c = '=' then some ([], rest)
    else (splitEq rest).map (fun p => (c :: p.1, p.2))

/-- The loop of defaultEnv (run.go lines 116-123): each environment entry is
split at its first '='; an entry without '=' panics (modelled as none), an
entry KEY=VALUE assigns env[KEY] = VALUE. -/
def applyEnvEntries : List (String × String) → List String → Option (List (String × String))
  | env, [] => some env
  | env, value :: rest =>
    match splitEq value.toList with
    | none => none
    | some (k, v) => applyEnvEntries (envSet env (String.mk k) (String.mk v)) rest

/-- run.defaultEnv (run.go lines 92-125): the default map updated by the given
environment entries in order; none models the panic on a malformed entry. -/
def defaultEnv (environment : List String) : Option (List (String × String)) :=
  applyEnvEntries defaultEnvDefaults environment

/- ## Theorems -/

/-- Claim C1 (refuted, demonstrating the code bug): a successful ReceiveICC
that returns the entry with store-assigned id 1 leaves the read cursor at "$"
(the pre-call value of the local variable id), not at the id of the returned
entry, because line 106 assigns id instead of received.id to r.lastICCID. -/
theorem receiveICC_stores_stale_cursor :
    receiveICC ICCID.empty (SelectOutcome.streamDone ⟨some 1, some "hello", none⟩)
      = ⟨some "hello", none, ICCID.dollar⟩ ∧ ICCID.dollar ≠ ICCID.at 1 := by
  decide

/-- Claim C2 (refuted, demonstrating the code bug): with the reader already
blocked before the first send, the schedule SendICC p1, SendICC p2 followed by
the reader's second ReceiveICC yields p1 and then a receive that blocks
forever, not p1 followed by p2: the first receive reset the cursor to "$"
instead of advancing it past p1, so the already-appended p2 is invisible. -/
theorem runOps_second_receive_blocks :
    runOps [Op.receive, Op.send "p1", Op.send "p2", Op.receive] initialRedis
      = [some "p1", none]
    ∧ [some "p1", none] ≠ [some "p1", some "p2"] := by
  decide

/-- Claim C3 counterexample: the entry for user 7 with timestamp -1 is below
the boundary 1, yet DeleteOldApplause 1 keeps it, because ZREMRANGEBYSCORE is
called with lower bound 0. -/
theorem deleteOldApplause_keeps_negative_timestamp :
    (7, -1) ∈ deleteOldApplause [((7 : Int), (-1 : Int))] 1 ∧ ((-1 : Int) < 1) := by
  decide

/-- Claim C3 as amended: DeleteOldApplause b removes exactly the entries whose
timestamp lies in the interval from 0 inclusive to b exclusive; entries with
timestamp at least b are kept, and entries with negative timestamp are kept
as well. -/
theorem deleteOldApplause_removes_exactly_range (s : ApplauseState) (b : Int) (p : Int × Int) :
    p ∈ deleteOldApplause s b ↔ p ∈ s ∧ (p.2 < 0 ∨ b ≤ p.2) := by
  rw [deleteOldApplause, List.mem_filter]
  refine and_congr_right fun _ => ?_
  simp only [Bool.not_eq_true', Bool.and_eq_false_iff, decide_eq_false_iff_not, not_le]
  omega

/-- Claim C6 counterexample: the cancellation has already fired (ctxFired is
true), yet when the caller is preempted between spawning the XREAD goroutine
and entering the select, the goroutine's result - carrying the payload "hello"
appended after the cancellation - can be ready on the channel at the same
moment, and Go's select may then take the stream branch: a legal execution of
ReceiveICC returns the payload instead of the context's error. -/
theorem receiveICC_cancelled_race_delivery :
    (⟨some "hello", none, ICCID.dollar⟩ : ReceiveResult)
      ∈ possibleResults ICCID.empty "context canceled" true
          (some ⟨some 1, some "hello", none⟩)
    ∧ (⟨some "hello", none, ICCID.dollar⟩ : ReceiveResult).data ≠ none := by
  decide

/-- Claim C6 as amended: if ReceiveICC is called with a cancellation signal
that has already fired, then in every execution in which the XREAD result is
not yet ready when the select runs, the call returns the context's error and
no payload; only when the XREAD result is simultaneously ready may the select
deliver that already-completed result instead. -/
theorem receiveICC_cancelled_no_payload (lastID : ICCID) (ctxErr : String)
    (res : ReceiveResult) (hres : res ∈ possibleResults lastID ctxErr true none) :
    res.data = none ∧ res.err = some ctxErr := by
  simp only [possibleResults, if_true, List.append_nil, List.mem_singleton] at hres
  subst hres
  exact ⟨rfl, rfl⟩

/-- Witness for the amended claim C6 at concrete inputs: on a fresh service
with the cancellation fired and no XREAD result ready, the single possible
result carries no payload and the context's error. -/
theorem receiveICC_cancelled_no_payload_witness :
    (⟨none, some "context canceled", ICCID.empty⟩ : ReceiveResult).data = none ∧
    (⟨none, some "context canceled", ICCID.empty⟩ : ReceiveResult).err
      = some "context canceled" :=
  receiveICC_cancelled_no_payload ICCID.empty "context canceled"
    ⟨none, some "context canceled", ICCID.empty⟩ (by decide)

/-- Claim C7: when ReceiveICC returns because the cancellation signal fired
before data arrived, the read cursor lastICCID after the call equals its value
before the call. -/
theorem receiveICC_cancelled_cursor_unchanged (lastID : ICCID) (ctxErr : String) :
    (receiveICC lastID (SelectOutcome.ctxDone ctxErr)).lastICCID = lastID :=
  rfl

/-- Claim C8: a send request with anonymous identity is answered with status
401 and a body tagged not-allowed, and the underlying Sender is never
invoked. -/
theorem handleSend_anonymous_rejected (sendResult : Option IccError) :
    (handleSend 0 sendResult).status = 401 ∧
    (∃ msg, (handleSend 0 sendResult).body = Body.errorTagged "not-allowed" msg) ∧
    (handleSend 0 sendResult).backendCalled = false :=
  ⟨rfl, ⟨_, rfl⟩, rfl⟩

/-- Claim C9: for every internal error, HandleSend answers 500 and
HandleReceive answers 200, both with the fixed generic body that is built
without reference to the internal error text, so two runs that differ only in
that text produce identical responses. -/
theorem internal_errors_opaque (m1 m2 : String) (userID : Nat) :
    (handleSend (userID + 1) (some (IccError.internal m1))).status = 500 ∧
    (handleSend (userID + 1) (some (IccError.internal m1))).body = genericErrorBody ∧
    handleSend (userID + 1) (some (IccError.internal m1))
      = handleSend (userID + 1) (some (IccError.internal m2)) ∧
    (handleReceive (Except.error (IccError.internal m1))).status = 200 ∧
    (handleReceive (Except.error (IccError.internal m1))).body = genericErrorBody ∧
    handleReceive (Except.error (IccError.internal m1))
      = handleReceive (Except.error (IccError.internal m2)) := by
  simp [handleSend, handleReceive]

/-- splitEq finds no split exactly when the entry contains no '='; this is the
case in which Go strings.SplitN returns a single part and defaultEnv panics. -/
theorem splitEq_eq_none (l : List Char) : splitEq l = none ↔ '=' ∉ l := by
  induction l with
  | nil => simp [splitEq]
  | cons c rest ih =>
    by_cases h : c = '='
    · subst h; simp [splitEq]
    · simp [splitEq, h, Option.map_eq_none', ih, Ne.symm h]

/-- splitEq on a well-formed KEY=VALUE entry returns the key and the value. -/
theorem splitEq_append (k v : List Char) (h : '=' ∉ k) :
    splitEq (k ++ '=' :: v) = some (k, v) := by
  induction k with
  | nil => simp [splitEq]
  | cons c rest ih =>
    have hc : c ≠ '=' := fun hc => h (hc ▸ List.mem_cons_self c rest)
    have hr : '=' ∉ rest := fun hm => h (List.mem_cons_of_mem c hm)
    simp [splitEq, hc, ih hr]

/-- Assigning a key in the environment map makes lookup of that key return the
assigned value. -/
theorem envLookup_envSet (env : List (String × String)) (k v : String) :
    envLookup k (envSet env k v) = some v := by
  induction env with
  | nil => simp [envSet, envLookup]
  | cons p rest ih =>
    by_cases h : p.1 = k
    · simp only [envSet]
      rw [if_pos h]
      simp [envLookup]
    · simp only [envSet]
      rw [if_neg h]
      simp [envLookup, h, ih]

/-- The defaultEnv loop panics (none) whenever some entry has no '='. -/
theorem applyEnvEntries_malformed (es : List String) (env : List (String × String))
    (h : ∃ s ∈ es, ('=' : Char) ∉ s.toList) : applyEnvEntries env es = none := by
  induction es generalizing env with
  | nil => obtain ⟨s, hs, _⟩ := h; exact absurd hs (List.not_mem_nil s)
  | cons s0 rest ih =>
    obtain ⟨s, hs, hne⟩ := h
    rw [applyEnvEntries]
    rcases List.mem_cons.mp hs with heq | hmem
    · subst heq
      rw [(splitEq_eq_none s.toList).mpr hne]
    · cases hsplit : splitEq s0.toList with
      | none => rfl
      | some kv =>
        obtain ⟨k, v⟩ := kv
        exact ih _ ⟨s, hmem, hne⟩

/-- Claim C10: Run's environment parsing (defaultEnv) panics when some entry
of the environment lacks a '=' separator, and an entry KEY=VALUE makes the
parsed value override the built-in default for KEY. -/
theorem defaultEnv_parses_environment :
    (∀ es : List String, (∃ s ∈ es, ('=' : Char) ∉ s.toList) → defaultEnv es = none) ∧
    (∀ k v : String, ('=' : Char) ∉ k.toList →
      (defaultEnv [k ++ "=" ++ v]).map (envLookup k) = some (some v)) := by
  constructor
  · intro es h
    exact applyEnvEntries_malformed es defaultEnvDefaults h
  · intro k v hk
    have htl : (k ++ "=" ++ v).toList = k.toList ++ '=' :: v.toList := by
      simp [String.toList, String.data_append]
    rw [defaultEnv]
    simp only [applyEnvEntries]
    rw [htl, splitEq_append k.toList v.toList hk]
    simp only [Option.map_some']
    exact congrArg some (envLookup_envSet defaultEnvDefaults k v)

/-- Witness for claim C10 at concrete inputs: the entry NOEQUALS without '='
makes defaultEnv panic, and the entry ICC_PORT=1234 overrides the built-in
default 9007 for ICC_PORT with 1234. -/
theorem defaultEnv_parses_environment_witness :
    defaultEnv ["NOEQUALS"] = none ∧
    (defaultEnv ["ICC_PORT" ++ "=" ++ "1234"]).map (envLookup "ICC_PORT")
      = some (some "1234") :=
  ⟨defaultEnv_parses_environment.1 ["NOEQUALS"] ⟨"NOEQUALS", by decide, by decide⟩,
   defaultEnv_parses_environment.2 "ICC_PORT" "1234" (by decide)⟩

/-- The score zscore finds in a nonempty sorted set: the head when it is the
member, otherwise the score in the tail. -/
theorem zscore_cons (p : Int × Int) (tl : ApplauseState) (u : Int) :
    zscore (p :: tl) u = if p.1 = u then some p.2 else zscore tl u := by
  by_cases h : p.1 = u <;> simp [zscore, List.find?, h]

/-- zscore of the empty sorted set. -/
theorem zscore_nil (u : Int) : zscore [] u = none := rfl

/-- ZADD sets the score of the added member and leaves every other member's
score unchanged. -/
theorem zadd_zscore (s : ApplauseState) (score member u : Int) :
    zscore (zadd s score member) u = if u = member then some score else zscore s u := by
  induction s with
  | nil =>
    by_cases h : u = member
    · simp [zadd, zscore_cons, h]
    · have h2 : member ≠ u := fun hh => h hh.symm
      simp [zadd, zscore_cons, h, h2, zscore_nil]
  | cons hd tl ih =>
    by_cases hm : hd.1 = member
    · rw [zadd, if_pos hm, zscore_cons, zscore_cons]
      by_cases h : u = member
      · simp [h]
      · have h2 : member ≠ u := fun hh => h hh.symm
        have h3 : ¬(hd.1 = u) := hm ▸ h2
        simp [h, h2, h3]
    · rw [zadd, if_neg hm, zscore_cons, ih, zscore_cons]
      by_cases h : u = member
      · have h4 : ¬(hd.1 = member) := hm
        simp [h, h4]
      · by_cases hu : hd.1 = u <;> simp [h, hu]

/-- The members after a ZADD are the added member plus the previous members. -/
theorem zadd_keys_mem (s : ApplauseState) (score member u : Int) :
    u ∈ (zadd s score member).map Prod.fst ↔ u = member ∨ u ∈ s.map Prod.fst := by
  induction s with
  | nil => simp [zadd]
  | cons hd tl ih =>
    by_cases hm : hd.1 = member
    · rw [zadd, if_pos hm]
      simp [hm]
    · rw [zadd, if_neg hm]
      simp only [List.map_cons, List.mem_cons, ih]
      tauto

/-- ZADD keeps the members pairwise distinct: it updates in place rather than
creating a duplicate. -/
theorem zadd_keys_nodup (s : ApplauseState) (score member : Int)
    (h : (s.map Prod.fst).Nodup) : ((zadd s score member).map Prod.fst).Nodup := by
  induction s with
  | nil => simp [zadd]
  | cons hd tl ih =>
    simp only [List.map_cons, List.nodup_cons] at h
    by_cases hm : hd.1 = member
    · rw [zadd, if_pos hm]
      simp only [List.map_cons, List.nodup_cons]
      exact ⟨hm ▸ h.1, h.2⟩
    · rw [zadd, if_neg hm]
      simp only [List.map_cons, List.nodup_cons]
      refine ⟨?_, ih h.2⟩
      rw [zadd_keys_mem]
      rintro (heq | hmem)
      · exact hm heq
      · exact h.1 hmem

/-- Unfolding applyAll over the last send of a sequence. -/
theorem applyAll_concat (sends : List (Int × Int)) (p : Int × Int) :
    applyAll (sends ++ [p]) = sendApplause (applyAll sends) p.1 p.2 := by
  simp [applyAll, List.foldl_append]

/-- The most recent timestamp for a user after appending one send. -/
theorem lastSent_concat (sends : List (Int × Int)) (w t u : Int) :
    lastSent (sends ++ [(w, t)]) u = if u = w then some t else lastSent sends u := by
  by_cases h : u = w
  · subst h
    simp [lastSent, List.filter_append, List.getLast?_concat]
  · have h2 : ¬(w = u) := fun hh => h hh.symm
    simp [lastSent, List.filter_append, h2, h]

/-- After any sequence of SendApplause calls the stored score of each user is
the timestamp of that user's most recent send. -/
theorem applyAll_zscore (sends : List (Int × Int)) (u : Int) :
    zscore (applyAll sends) u = lastSent sends u := by
  induction sends using List.reverseRecOn with
  | nil => rfl
  | append_singleton ss p ih =>
    obtain ⟨w, t⟩ := p
    rw [applyAll_concat, lastSent_concat]
    rw [sendApplause, zadd_zscore, ih]

/-- After any sequence of SendApplause calls the stored members are pairwise
distinct: at most one live entry per userID. -/
theorem applyAll_keys_nodup (sends : List (Int × Int)) :
    ((applyAll sends).map Prod.fst).Nodup := by
  induction sends using List.reverseRecOn with
  | nil => simp [applyAll]
  | append_singleton ss p ih =>
    rw [applyAll_concat]
    exact zadd_keys_nodup _ _ _ ih

/-- The stored members after a sequence of SendApplause calls are exactly the
userIDs that sent applause. -/
theorem applyAll_keys_mem (sends : List (Int × Int)) (u : Int) :
    u ∈ (applyAll sends).map Prod.fst ↔ u ∈ sends.map Prod.fst := by
  induction sends using List.reverseRecOn with
  | nil => simp [applyAll]
  | append_singleton ss p ih =>
    rw [applyAll_concat, sendApplause, zadd_keys_mem, ih]
    simp [or_comm]

/-- On a sorted set with pairwise distinct members, the ZCOUNT-style filter
length equals the cardinality of the set of members whose stored score is at
least since. -/
theorem count_filter_eq_card (s : ApplauseState) (since : Int)
    (h : (s.map Prod.fst).Nodup) :
    (s.filter (fun p => decide (since ≤ p.2))).length
      = ((s.map Prod.fst).toFinset.filter
          (fun u => since ≤ (zscore s u).getD (since - 1))).card := by
  induction s with
  | nil => simp
  | cons hd tl ih =>
    obtain ⟨w, t⟩ := hd
    simp only [List.map_cons, List.nodup_cons] at h
    obtain ⟨hw, htl⟩ := h
    have hzw : zscore ((w, t) :: tl) w = some t := by
      rw [zscore_cons]; simp
    have hztl : ∀ u ∈ (tl.map Prod.fst).toFinset,
        (since ≤ (zscore ((w, t) :: tl) u).getD (since - 1))
          ↔ (since ≤ (zscore tl u).getD (since - 1)) := by
      intro u hu
      have hne : ¬((w, t).1 = u) := by
        intro hh
        have hh' : w = u := hh
        exact hw (hh'.symm ▸ List.mem_toFinset.mp hu)
      rw [zscore_cons, if_neg hne]
    rw [List.map_cons, List.toFinset_cons, Finset.filter_insert]
    have hcongr : ((tl.map Prod.fst).toFinset.filter
          (fun u => since ≤ (zscore ((w, t) :: tl) u).getD (since - 1)))
        = ((tl.map Prod.fst).toFinset.filter
          (fun u => since ≤ (zscore tl u).getD (since - 1))) :=
      Finset.filter_congr hztl
    by_cases hc : since ≤ t
    · have hcond : since ≤ (zscore ((w, t) :: tl) w).getD (since - 1) := by
        rw [hzw]; exact hc
      rw [if_pos hcond, hcongr]
      have hwnot : w ∉ ((tl.map Prod.fst).toFinset.filter
          (fun u => since ≤ (zscore tl u).getD (since - 1))) := by
        intro hmem
        exact hw (List.mem_toFinset.mp (Finset.mem_filter.mp hmem).1)
      rw [Finset.card_insert_of_not_mem hwnot]
      have hlhs : ((w, t) :: tl).filter (fun p => decide (since ≤ p.2))
          = (w, t) :: tl.filter (fun p => decide (since ≤ p.2)) := by
        simp [List.filter_cons, hc]
      rw [hlhs, List.length_cons, ih htl]
    · have hcond : ¬(since ≤ (zscore ((w, t) :: tl) w).getD (since - 1)) := by
        rw [hzw]; exact hc
      rw [if_neg hcond, hcongr]
      have hlhs : ((w, t) :: tl).filter (fun p => decide (since ≤ p.2))
          = tl.filter (fun p => decide (since ≤ p.2)) := by
        simp [List.filter_cons, hc]
      rw [hlhs, ih htl]

/-- Claim C4: for every since value and every prior sequence of SendApplause
calls, ReceiveApplause since returns exactly the number of distinct userIDs
whose most recent SendApplause timestamp is at least since. -/
theorem receiveApplause_counts_distinct_recent (sends : List (Int × Int)) (since : Int) :
    receiveApplause (applyAll sends) since = specDistinctRecentCount sends since := by
  rw [receiveApplause, specDistinctRecentCount,
    count_filter_eq_card (applyAll sends) since (applyAll_keys_nodup sends)]
  have hset : ((applyAll sends).map Prod.fst).toFinset = (sends.map Prod.fst).toFinset := by
    ext u
    simp only [List.mem_toFinset]
    exact applyAll_keys_mem sends u
  rw [hset]
  exact congrArg Finset.card
    (Finset.filter_congr (fun u _ => by rw [applyAll_zscore]))

/-- On a sorted set with pairwise distinct members, the entries for a member
with stored score v are exactly the one entry (member, v). -/
theorem filter_key_of_nodup (s : ApplauseState) (u v : Int)
    (hnd : (s.map Prod.fst).Nodup) (hz : zscore s u = some v) :
    s.filter (fun p => decide (p.1 = u)) = [(u, v)] := by
  induction s with
  | nil => simp [zscore] at hz
  | cons hd tl ih =>
    simp only [List.map_cons, List.nodup_cons] at hnd
    obtain ⟨hw, htl⟩ := hnd
    by_cases hu : hd.1 = u
    · rw [zscore_cons, if_pos hu] at hz
      have hv : hd.2 = v := Option.some.inj hz
      have hhd : hd = (u, v) := by
        obtain ⟨a, b⟩ := hd
        simp only at hu hv
        rw [hu, hv]
      have hnil : tl.filter (fun p => decide (p.1 = u)) = [] := by
        rw [List.filter_eq_nil_iff]
        intro a ha
        simp only [decide_eq_true_eq]
        intro haa
        apply hw
        rw [hu, ← haa]
        exact List.mem_map_of_mem Prod.fst ha
      simp [List.filter_cons, hu, hnil, hhd]
    · rw [zscore_cons, if_neg hu] at hz
      simp only [List.filter_cons, hu, decide_eq_true_eq, if_neg hu]
      simp only [decide_eq_false (show ¬(hd.1 = u) from hu), Bool.false_eq_true, if_false]
      exact ih htl hz

/-- A ZCOUNT-style filter splits into the contribution of one member's entries
and the contribution of all other entries. -/
theorem length_filter_split (s : ApplauseState) (u since : Int) :
    (s.filter (fun p => decide (since ≤ p.2))).length
      = ((s.filter (fun p => decide (p.1 = u))).filter
          (fun p => decide (since ≤ p.2))).length
        + ((s.filter (fun p => !decide (p.1 = u))).filter
          (fun p => decide (since ≤ p.2))).length := by
  induction s with
  | nil => simp
  | cons hd tl ih =>
    by_cases h1 : hd.1 = u <;> by_cases h2 : since ≤ hd.2 <;>
      simp [List.filter_cons, h1, h2, ih] <;> omega

/-- Claim C5: on any applause state with at most one live entry per userID,
SendApplause u t followed by SendApplause u t2 with t2 greater than t leaves
exactly the single entry (u, t2) for u, and ReceiveApplause since with since
at most t counts u once on top of the count of the other users' entries. -/
theorem sendApplause_dedups_per_user (s0 : ApplauseState) (u t t2 since : Int)
    (hnd : (s0.map Prod.fst).Nodup) (h1 : t < t2) (h2 : since ≤ t) :
    (sendApplause (sendApplause s0 u t) u t2).filter (fun p => decide (p.1 = u))
      = [(u, t2)]
    ∧ receiveApplause (sendApplause (sendApplause s0 u t) u t2) since
      = 1 + receiveApplause ((sendApplause (sendApplause s0 u t) u t2).filter
          (fun p => !decide (p.1 = u))) since := by
  have hnd2 : (((sendApplause (sendApplause s0 u t) u t2)).map Prod.fst).Nodup :=
    zadd_keys_nodup _ _ _ (zadd_keys_nodup _ _ _ hnd)
  have hz : zscore (sendApplause (sendApplause s0 u t) u t2) u = some t2 := by
    rw [sendApplause, zadd_zscore]
    simp
  have hfil := filter_key_of_nodup _ u t2 hnd2 hz
  refine ⟨hfil, ?_⟩
  rw [receiveApplause, length_filter_split _ u since, hfil]
  have hle : since ≤ t2 := le_of_lt (lt_of_le_of_lt h2 h1)
  rw [receiveApplause]
  simp [List.filter_cons, hle]

/-- Witness for claim C5 at concrete inputs: after applause from user 9 at
time 100, user 1 sends applause at times 5 and then 6; exactly the entry
(1, 6) is live for user 1 and the count since time 3 is one more than the
count over the other users. -/
theorem sendApplause_dedups_per_user_witness :
    (sendApplause (sendApplause (applyAll [((9 : Int), (100 : Int))]) 1 5) 1 6).filter
        (fun p => decide (p.1 = 1)) = [(1, 6)]
    ∧ receiveApplause (sendApplause (sendApplause (applyAll [((9 : Int), (100 : Int))]) 1 5) 1 6) 3
      = 1 + receiveApplause ((sendApplause (sendApplause
            (applyAll [((9 : Int), (100 : Int))]) 1 5) 1 6).filter
          (fun p => !decide (p.1 = 1))) 3 :=
  sendApplause_dedups_per_user (applyAll [((9 : Int), (100 : Int))]) 1 5 6 3
    (by decide) (by decide) (by decide)
